import Mathlib

/-!
Verification development for the elevator ENQ simulator
(src/backend-cli/elevator_enq_sim.c) and the serial receive monitor
(src/raspberryPi/product/serial_debug_test.c).

Strings are modelled as Lean strings over their character codes; all wire
data in the program is 7-bit ASCII, so a character code coincides with the
byte value the C code sums and transmits.
-/

/-! ## Hexadecimal rendering (the C sprintf %02X / %04X conversions) -/

/-- One uppercase hexadecimal digit, as produced by printf %X:
value 0..9 renders as the character codes 48..57, value 10..15 as 65..70. -/
def hexDigit (n : Nat) : Char :=
  if n < 10 then Char.ofNat (48 + n) else Char.ofNat (55 + n)

/-- Fuel-bounded most-significant-first hex digit expansion.  With fuel at
least the number of digits it yields the minimal hex representation of n
(empty for 0, as the padded printf forms below never print fewer than the
field width). -/
def hexRepAux : Nat → Nat → List Char
  | 0, _ => []
  | fuel + 1, n =>
    if n = 0 then [] else hexRepAux fuel (n / 16) ++ [hexDigit (n % 16)]

/-- Hex digits of n, most significant first.  Fuel 32 is exact for every
value the program ever formats (all are below 16 ^ 32; in fact below 2 ^ 32,
the width of the C unsigned int that printf %X receives). -/
def hexRep (n : Nat) : List Char := hexRepAux 32 n

/-- Zero padding to a minimum field width, as printf %0wX does. -/
def zpad (w : Nat) (ds : List Char) : List Char :=
  List.replicate (w - ds.length) '0' ++ ds

/-- The C conversion sprintf(out, "%02X", n) for n < 256. -/
def sprintf02X (n : Nat) : String := String.mk (zpad 2 (hexRep n))

/-- The C conversion sprintf(out, "%04X", n) for an unsigned 32-bit n. -/
def sprintf04X (n : Nat) : String := String.mk (zpad 4 (hexRep n))

/-- Numeric value of one hex digit character (inverse of hexDigit). -/
def hexDigitVal (c : Char) : Nat :=
  if 48 ≤ c.toNat ∧ c.toNat ≤ 57 then c.toNat - 48
  else if 65 ≤ c.toNat ∧ c.toNat ≤ 70 then c.toNat - 55
  else 0

/-- Value denoted by a big-endian string of hex digits. -/
def hexVal (l : List Char) : Nat :=
  l.foldl (fun a c => 16 * a + hexDigitVal c) 0

/-- Recognizer for the characters %X can emit: 0-9 and uppercase A-F. -/
def isHexDigitChar (c : Char) : Bool :=
  decide ((48 ≤ c.toNat ∧ c.toNat ≤ 57) ∨ (65 ≤ c.toNat ∧ c.toNat ≤ 70))

/-! ## Telegram codec (calculate_checksum, send_enq framing) -/

/-- The fixed station id used by send_enq. -/
def station : String := "0002"

/-- The fixed command character used by send_enq. -/
def cmdW : String := "W"

/-- The data part assembled by send_enq:
sprintf(data_part, "%s%s%s%s", station, cmd, dataNum, dataValue). -/
def data_part (dataNum dataValue : String) : String :=
  station ++ cmdW ++ dataNum ++ dataValue

/-- calculate_checksum: sum of the byte values of the data part, low 8 bits,
rendered with %02X.  (The C accumulator is an unsigned int reduced with
& 0xFF; reducing the exact sum mod 256 yields the same residue because 256
divides 2 ^ 32.) -/
def calculate_checksum (s : String) : String :=
  sprintf02X ((s.data.map Char.toNat).sum % 256)

/-- The frame buffer built by send_enq:
sprintf(message, "\x05%s%s", data_part, checksum). -/
def message (dataNum dataValue : String) : String :=
  String.mk (Char.ofNat 5 :: (data_part dataNum dataValue).data)
    ++ calculate_checksum (data_part dataNum dataValue)

/-- The bytes actually handed to WriteFile: strlen(message) bytes, i.e. the
prefix of the buffer up to the first NUL byte. -/
def sent_bytes (dataNum dataValue : String) : List Nat :=
  (((message dataNum dataValue).data.map Char.toNat).takeWhile (fun b => b ≠ 0))

/-! ## Floor encoder (floor_to_hex) -/

/-- floor_to_hex: -1 maps to "FFFF", every other floor f is formatted with
sprintf "%04X", which converts the C int argument to an unsigned int,
i.e. reduces it mod 2 ^ 32. -/
def floor_to_hex (f : Int) : String :=
  if f = -1 then "FFFF" else sprintf04X (f % (2 ^ 32 : Int)).toNat

/-! ## Scenario state machine (wmain of elevator_enq_sim.c)

The volatile flag running is set to 0 asynchronously by the SIGINT/SIGTERM
handler and only ever moves from 1 to 0.  Each read of the flag is a poll;
the observable outcomes of the polls form a monotone boolean sequence, which
we model by the number k of polls that still see the flag set: poll number p
(counted from 0 across the whole run) returns (p < k).  k is arbitrary, so
every possible cancellation instant is covered; a run that is never
cancelled corresponds to any k larger than the number of polls performed.

Write outcomes are an oracle w : Nat -> Bool indexed by a running send
counter: WriteFile returns nonzero for send number s iff w s.  send_enq
ignores the outcome except for which log line it prints, so no scenario
state depends on w; claim C9 proves exactly that. -/

/-- Observable events of the scenario loop.  poll records one read of the
running flag together with the value read; send records one send_enq call
(data number, data value, and whether its WriteFile succeeded); sleep u is
a single uninterruptible Sleep of u time-units; setFloor is the
current_floor assignment. -/
inductive Ev
  | poll (b : Bool)
  | send (dataNum dataValue : String) (ok : Bool)
  | sleep (units : Nat)
  | setFloor (f : Int)
  deriving DecidableEq

/-- Result of one pass of the while body: the events it produced, the next
poll index, the next send index, the current_floor afterwards, and whether
control reaches the loop condition again (false when a break fired). -/
structure CycleRes where
  events : List Ev
  polls : Nat
  sends : Nat
  floor : Int
  cont : Bool
  deriving DecidableEq

/-- One burst stage: for (int i = 0; i < r && running; i++) with a send_enq
and a Sleep(1000) in the body.  Each loop-condition evaluation of running
is a poll; on a false poll the loop exits at once. -/
def burst (dn dv : String) (k : Nat) (w : Nat → Bool) :
    Nat → Nat → Nat → List Ev × Nat × Nat
  | 0, p, s => ([], p, s)
  | r + 1, p, s =>
    if p < k then
      let res := burst dn dv k w r (p + 1) (s + 1)
      (Ev.poll true :: Ev.send dn dv (w s) :: Ev.sleep 1 :: res.1, res.2)
    else ([Ev.poll false], p + 1, s)

/-- One polled wait: for (int i = 0; i < r && running; i++) Sleep(1000). -/
def pollWait (k : Nat) : Nat → Nat → List Ev × Nat
  | 0, p => ([], p)
  | r + 1, p =>
    if p < k then
      let res := pollWait k r (p + 1)
      (Ev.poll true :: Ev.sleep 1 :: res.1, res.2)
    else ([Ev.poll false], p + 1)

/-- The while body after target selection, transcribed from wmain:
stage bursts of five sends, the two monolithic Sleep(3000) waits, the two
polled 10-unit waits, the if (!running) break checks between stages, and
the unconditional current_floor = target_floor after the arrival burst. -/
def cycleBody (cur tgt : Int) (k : Nat) (w : Nat → Bool) (p sc : Nat) :
    CycleRes :=
  let b1 := burst "0001" (floor_to_hex cur) k w 5 p sc
  if b1.2.1 < k then
    let b2 := burst "0002" (floor_to_hex tgt) k w 5 (b1.2.1 + 1) b1.2.2
    if b2.2.1 < k then
      let b3 := burst "0003" "074E" k w 5 (b2.2.1 + 1) b2.2.2
      if b3.2.1 < k then
        let w1 := pollWait k 10 (b3.2.1 + 1)
        if w1.2 < k then
          let b4 := burst "0002" "0000" k w 5 (w1.2 + 1) b3.2.2
          let w2 := pollWait k 10 b4.2.1
          ⟨b1.1 ++ Ev.poll true :: Ev.sleep 3 ::
             (b2.1 ++ Ev.poll true :: Ev.sleep 3 ::
               (b3.1 ++ Ev.poll true ::
                 (w1.1 ++ Ev.poll true ::
                   (b4.1 ++ Ev.setFloor tgt :: w2.1)))),
           w2.2, b4.2.2, tgt, true⟩
        else
          ⟨b1.1 ++ Ev.poll true :: Ev.sleep 3 ::
             (b2.1 ++ Ev.poll true :: Ev.sleep 3 ::
               (b3.1 ++ Ev.poll true :: (w1.1 ++ [Ev.poll false]))),
           w1.2 + 1, b3.2.2, cur, false⟩
      else
        ⟨b1.1 ++ Ev.poll true :: Ev.sleep 3 ::
           (b2.1 ++ Ev.poll true :: Ev.sleep 3 :: (b3.1 ++ [Ev.poll false])),
         b3.2.1 + 1, b3.2.2, cur, false⟩
    else
      ⟨b1.1 ++ Ev.poll true :: Ev.sleep 3 :: (b2.1 ++ [Ev.poll false]),
       b2.2.1 + 1, b2.2.2, cur, false⟩
  else ⟨b1.1 ++ [Ev.poll false], b1.2.1 + 1, b1.2.2, cur, false⟩

/-- The fixed floor table int floors[] = { -1, 1, 2, 3 }. -/
def floorsGet (i : Nat) : Int := ([-1, 1, 2, 3] : List Int).getD i 0

/-- Target selection: do { target = floors[rand() % 4]; } while (target ==
current).  The rand() stream is an oracle s indexed by a draw counter r;
fuel bounds the number of resamples so the definition is total (the C loop
itself has no bound; claim C6 shows a suitable draw always exists). -/
def selectTarget (s : Nat → Nat) (cur : Int) : Nat → Nat → Option (Int × Nat)
  | 0, _ => none
  | fuel + 1, r =>
    let t := floorsGet (s r % 4)
    if t = cur then selectTarget s cur fuel (r + 1) else some (t, r + 1)

/-- The while (running) loop of wmain: poll the flag, pick a target, run the
body, and loop with the body's resulting floor; stop on a false poll, on a
break inside the body, or when the step fuel runs out. -/
def sim (s : Nat → Nat) (k sf : Nat) (w : Nat → Bool) :
    Nat → Int → Nat → Nat → Nat → List Ev
  | 0, _, _, _, _ => []
  | fuel + 1, cur, p, r, sc =>
    if p < k then
      match selectTarget s cur sf r with
      | none => [Ev.poll true]
      | some (t, r') =>
        let c := cycleBody cur t k w (p + 1) sc
        if c.cont then
          Ev.poll true :: (c.events ++ sim s k sf w fuel c.floor c.polls r' c.sends)
        else Ev.poll true :: c.events
    else [Ev.poll false]

/-! ## Spec-side stage traces (for the refinement claims C3/C4/C5) -/

/-- Trace of an uninterrupted burst of r sends: poll seen true, send, one
unit of sleep, repeated. -/
def specBurstN (dn dv : String) (w : Nat → Bool) : Nat → Nat → List Ev
  | 0, _ => []
  | r + 1, s =>
    Ev.poll true :: Ev.send dn dv (w s) :: Ev.sleep 1 :: specBurstN dn dv w r (s + 1)

/-- Trace of an uninterrupted polled wait of r units. -/
def specWaitN : Nat → List Ev
  | 0 => []
  | r + 1 => Ev.poll true :: Ev.sleep 1 :: specWaitN r

/-- The full stage order of one uncancelled cycle, written down from the
spec's stage list (section 4.3): AnnounceCurrent times 5, wait 3,
AnnounceTarget times 5, wait 3, PassengerLoad times 5, wait 10, Arrival
times 5 then the currentFloor update, wait 10.  The guard polls between
stages are the if (!running) break checks. -/
def specCycleTrace (cur tgt : Int) (w : Nat → Bool) (sc : Nat) : List Ev :=
  specBurstN "0001" (floor_to_hex cur) w 5 sc ++ Ev.poll true :: Ev.sleep 3 ::
    (specBurstN "0002" (floor_to_hex tgt) w 5 (sc + 5) ++ Ev.poll true :: Ev.sleep 3 ::
      (specBurstN "0003" "074E" w 5 (sc + 10) ++ Ev.poll true ::
        (specWaitN 10 ++ Ev.poll true ::
          (specBurstN "0002" "0000" w 5 (sc + 15) ++ Ev.setFloor tgt :: specWaitN 10))))

/-! ## Polling discipline predicates (claim C4) -/

/-- Every send event is immediately preceded by a poll that read true; the
accumulator carries the previous event. -/
def sendsPolled : Option Ev → List Ev → Bool
  | _, [] => true
  | prev, e :: rest =>
    (match e with
     | Ev.send _ _ _ => decide (prev = some (Ev.poll true))
     | _ => true) && sendsPolled (some e) rest

/-- Every sleep event is immediately preceded by a poll that read true. -/
def waitPolled : Option Ev → List Ev → Bool
  | _, [] => true
  | prev, e :: rest =>
    (match e with
     | Ev.sleep _ => decide (prev = some (Ev.poll true))
     | _ => true) && waitPolled (some e) rest

/-- Erase the write outcome carried by send events (claim C9: nothing but
that outcome's log line depends on the write result). -/
def eraseW : Ev → Ev
  | Ev.send dn dv _ => Ev.send dn dv true
  | e => e

/-! ## Transmission driver logging (send_enq, claim C9) -/

/-- The single log line send_enq produces. -/
inductive SendLog
  | sendErr (err : Nat)
  | sent (stationId dataValue checksum : String)
  deriving DecidableEq

/-- send_enq's visible outcome given whether WriteFile succeeded (wok) and
the GetLastError code on failure: on failure it prints the error line and
returns early; on success it prints the transmission line. -/
def send_enq_log (dn dv : String) (wok : Bool) (err : Nat) : SendLog :=
  if wok then SendLog.sent station dv (calculate_checksum (data_part dn dv))
  else SendLog.sendErr err

/-! ## Frame-timeout receive monitor (monitor_serial, claim C8) -/

/-- Outcome of one read(fd, buf, 256) call: a hard error (n < 0) or a list
of bytes (n = 0 on a pure VTIME timeout). -/
inductive ReadRes
  | err
  | bytes (bs : List Nat)
  deriving DecidableEq

/-- A log line of the monitor loop: a received-frame dump or the idle
heartbeat line. -/
inductive MLog
  | frame (t : Nat) (bs : List Nat)
  | heartbeat (t : Nat)
  deriving DecidableEq

/-- One iteration of the monitor loop, parameterised by the time now at
which the read returned.  State is last_activity.  n < 0: back off, retry;
n > 0: log the frame, last_activity = now; n = 0: heartbeat only when more
than 10 units have passed since last_activity, and then reset it. -/
def monStep (last now : Nat) (r : ReadRes) : List MLog × Nat :=
  match r with
  | ReadRes.err => ([], last)
  | ReadRes.bytes bs =>
    if bs.length > 0 then ([MLog.frame now bs], now)
    else if 10 < now - last then ([MLog.heartbeat now], now)
    else ([], last)

/-- The monitor loop over a finite schedule of timestamped read results. -/
def monRun (last : Nat) : List (Nat × ReadRes) → List MLog × Nat
  | [] => ([], last)
  | (now, r) :: rest =>
    let st := monStep last now r
    let rst := monRun st.2 rest
    (st.1 ++ rst.1, rst.2)

/-- The times at which heartbeat lines were emitted, in order. -/
def hbTimes (logs : List MLog) : List Nat :=
  logs.filterMap (fun l => match l with | MLog.heartbeat t => some t | _ => none)

/-! ## Helper lemmas about hex rendering -/

lemma hexDigitVal_hexDigit {n : Nat} (h : n < 16) :
    hexDigitVal (hexDigit n) = n := by
  interval_cases n <;> decide

lemma isHexDigitChar_hexDigit {n : Nat} (h : n < 16) :
    isHexDigitChar (hexDigit n) = true := by
  interval_cases n <;> decide

lemma hexVal_append (xs : List Char) (c : Char) :
    hexVal (xs ++ [c]) = 16 * hexVal xs + hexDigitVal c := by
  simp [hexVal, List.foldl_append]

lemma hexVal_hexRepAux : ∀ fuel n, n < 16 ^ fuel →
    hexVal (hexRepAux fuel n) = n := by
  intro fuel
  induction fuel with
  | zero =>
    intro n hn
    simp at hn
    subst hn
    rfl
  | succ fuel ih =>
    intro n hn
    by_cases h0 : n = 0
    · subst h0; rfl
    · rw [hexRepAux, if_neg h0, hexVal_append,
        ih (n / 16) (by
          rw [Nat.div_lt_iff_lt_mul (by norm_num)]
          calc n < 16 ^ (fuel + 1) := hn
            _ = 16 ^ fuel * 16 := by ring),
        hexDigitVal_hexDigit (Nat.mod_lt n (by norm_num))]
      omega

lemma length_hexRepAux_le : ∀ fuel k n, n < 16 ^ k → k ≤ fuel →
    (hexRepAux fuel n).length ≤ k := by
  intro fuel
  induction fuel with
  | zero =>
    intro k n _ _
    simp [hexRepAux]
  | succ fuel ih =>
    intro k n hn hk
    by_cases h0 : n = 0
    · subst h0
      simp [hexRepAux]
    · rw [hexRepAux, if_neg h0]
      rcases k with _ | j
      · exfalso; simp at hn; exact h0 hn
      · have hdiv : n / 16 < 16 ^ j := by
          rw [Nat.div_lt_iff_lt_mul (by norm_num)]
          calc n < 16 ^ (j + 1) := hn
            _ = 16 ^ j * 16 := by ring
        have := ih j (n / 16) hdiv (by omega)
        simp only [List.length_append, List.length_singleton]
        omega

lemma lt_length_hexRepAux : ∀ fuel k n, 16 ^ k ≤ n → n < 16 ^ fuel →
    k < (hexRepAux fuel n).length := by
  intro fuel
  induction fuel with
  | zero =>
    intro k n hk hn
    exfalso
    have : (1 : Nat) ≤ 16 ^ k := Nat.one_le_pow _ _ (by norm_num)
    simp at hn
    omega
  | succ fuel ih =>
    intro k n hk hn
    have h0 : n ≠ 0 := by
      have : (1 : Nat) ≤ 16 ^ k := Nat.one_le_pow _ _ (by norm_num)
      omega
    rw [hexRepAux, if_neg h0]
    rcases k with _ | j
    · simp
    · have hge : 16 ^ j ≤ n / 16 := by
        rw [Nat.le_div_iff_mul_le (by norm_num)]
        calc 16 ^ j * 16 = 16 ^ (j + 1) := by ring
          _ ≤ n := hk
      have hlt : n / 16 < 16 ^ fuel := by
        rw [Nat.div_lt_iff_lt_mul (by norm_num)]
        calc n < 16 ^ (fuel + 1) := hn
          _ = 16 ^ fuel * 16 := by ring
      have := ih j (n / 16) hge hlt
      simp only [List.length_append, List.length_singleton]
      omega

lemma hexRepAux_digits : ∀ fuel n c, c ∈ hexRepAux fuel n →
    isHexDigitChar c = true := by
  intro fuel
  induction fuel with
  | zero => intro n c hc; simp [hexRepAux] at hc
  | succ fuel ih =>
    intro n c hc
    by_cases h0 : n = 0
    · subst h0; simp [hexRepAux] at hc
    · rw [hexRepAux, if_neg h0] at hc
      rcases List.mem_append.mp hc with h | h
      · exact ih _ _ h
      · simp at h
        subst h
        exact isHexDigitChar_hexDigit (Nat.mod_lt n (by norm_num))

lemma length_zpad (w : Nat) (ds : List Char) :
    (zpad w ds).length = max w ds.length := by
  simp [zpad]
  omega

lemma hexVal_zero_replicate : ∀ m,
    List.foldl (fun a c => 16 * a + hexDigitVal c) 0 (List.replicate m '0') = 0 := by
  intro m
  induction m with
  | zero => rfl
  | succ m ih => simpa [List.replicate_succ] using ih

lemma hexVal_zpad (w : Nat) (ds : List Char) : hexVal (zpad w ds) = hexVal ds := by
  simp [zpad, hexVal, List.foldl_append, hexVal_zero_replicate]

lemma zpad_digits {ds : List Char} (h : ∀ c ∈ ds, isHexDigitChar c = true) :
    ∀ c ∈ zpad w ds, isHexDigitChar c = true := by
  intro c hc
  rcases List.mem_append.mp hc with h' | h'
  · have : c = '0' := List.eq_of_mem_replicate h'
    subst this
    decide
  · exact h c h'

lemma sprintf02X_spec {n : Nat} (h : n < 256) :
    (sprintf02X n).length = 2 ∧
    (∀ c ∈ (sprintf02X n).data, isHexDigitChar c = true) ∧
    hexVal (sprintf02X n).data = n := by
  have hlen : (hexRep n).length ≤ 2 :=
    length_hexRepAux_le 32 2 n (by omega) (by omega)
  refine ⟨?_, ?_, ?_⟩
  · show (zpad 2 (hexRep n)).length = 2
    rw [length_zpad]
    omega
  · exact zpad_digits (fun c hc => hexRepAux_digits 32 n c hc)
  · show hexVal (zpad 2 (hexRep n)) = n
    rw [hexVal_zpad]
    exact hexVal_hexRepAux 32 n (by
      calc n < 256 := h
        _ ≤ 16 ^ 32 := by norm_num)

lemma length_sprintf04X (n : Nat) :
    (sprintf04X n).length = max 4 (hexRep n).length := by
  show (zpad 4 (hexRep n)).length = _
  exact length_zpad 4 _

lemma sprintf04X_spec {n : Nat} (h : n < 65536) :
    (sprintf04X n).length = 4 ∧
    (∀ c ∈ (sprintf04X n).data, isHexDigitChar c = true) ∧
    hexVal (sprintf04X n).data = n := by
  have hlen : (hexRep n).length ≤ 4 :=
    length_hexRepAux_le 32 4 n (by omega) (by omega)
  refine ⟨?_, ?_, ?_⟩
  · rw [length_sprintf04X]; omega
  · exact zpad_digits (fun c hc => hexRepAux_digits 32 n c hc)
  · show hexVal (zpad 4 (hexRep n)) = n
    rw [hexVal_zpad]
    exact hexVal_hexRepAux 32 n (by
      calc n < 65536 := h
        _ ≤ 16 ^ 32 := by norm_num)

lemma sprintf04X_len8 {n : Nat} (h1 : 16 ^ 7 ≤ n) (h2 : n < 16 ^ 8) :
    (sprintf04X n).length = 8 ∧ hexVal (sprintf04X n).data = n := by
  have hle : (hexRep n).length ≤ 8 :=
    length_hexRepAux_le 32 8 n h2 (by omega)
  have hgt : 7 < (hexRep n).length :=
    lt_length_hexRepAux 32 7 n h1 (by
      calc n < 16 ^ 8 := h2
        _ ≤ 16 ^ 32 := by norm_num)
  refine ⟨?_, ?_⟩
  · rw [length_sprintf04X]; omega
  · show hexVal (zpad 4 (hexRep n)) = n
    rw [hexVal_zpad]
    exact hexVal_hexRepAux 32 n (by
      calc n < 16 ^ 8 := h2
        _ ≤ 16 ^ 32 := by norm_num)

/-- The full content of claim C10 for a negative int other than -1:
%04X receives the two's-complement reinterpretation f + 2 ^ 32, which has
eight significant hex digits, so the padding width 4 is exceeded. -/
lemma floor_to_hex_neg {f : Int} (hlo : -(2 ^ 31) ≤ f) (hhi : f ≤ -2) :
    (floor_to_hex f).length = 8 ∧
    hexVal (floor_to_hex f).data = (f + 2 ^ 32).toNat := by
  have hne : f ≠ -1 := by omega
  have h32 : ((2 : Int) ^ 32) = 4294967296 := by norm_num
  have h31 : ((2 : Int) ^ 31) = 2147483648 := by norm_num
  have hmod : f % ((2 : Int) ^ 32) = f + 2 ^ 32 := by
    rw [h32] at *
    omega
  have h1 : 16 ^ 7 ≤ (f + (2 : Int) ^ 32).toNat := by
    rw [h32] at *
    have : (16 : Nat) ^ 7 = 268435456 := by norm_num
    omega
  have h2 : (f + (2 : Int) ^ 32).toNat < 16 ^ 8 := by
    rw [h32] at *
    have : (16 : Nat) ^ 8 = 4294967296 := by norm_num
    omega
  have := sprintf04X_len8 h1 h2
  simpa only [floor_to_hex, if_neg hne, hmod] using this

/-- C2: for every data part string, the checksum is the sum of the
character byte values reduced mod 256, rendered as exactly two uppercase
(zero-padded) hexadecimal digits; in particular a data part whose bytes
sum to 256 yields "00". -/
theorem checksum_spec : ∀ s : String,
    (calculate_checksum s).length = 2 ∧
    (∀ c ∈ (calculate_checksum s).data, isHexDigitChar c = true) ∧
    hexVal (calculate_checksum s).data = (s.data.map Char.toNat).sum % 256 ∧
    ((s.data.map Char.toNat).sum = 256 → calculate_checksum s = "00") := by
  intro s
  have h := sprintf02X_spec
    (n := (s.data.map Char.toNat).sum % 256)
    (Nat.mod_lt _ (by norm_num))
  refine ⟨h.1, h.2.1, h.2.2, ?_⟩
  intro hsum
  show sprintf02X ((s.data.map Char.toNat).sum % 256) = "00"
  rw [hsum]
  decide

/-- Witness for C2 at a concrete data part: the four-character string of
'@' bytes (4 times 64) sums to exactly 256 and produces checksum "00". -/
theorem checksum_spec_wit : calculate_checksum "@@@@" = "00" :=
  (checksum_spec "@@@@").2.2.2 (by decide)

/-- C7: floor_to_hex maps -1 to "FFFF" and every floor in [0, 65535] to
the zero-padded 4-hex-digit rendering of its unsigned 16-bit value; in
particular 2 maps to "0002". -/
theorem floor_to_hex_spec :
    floor_to_hex (-1) = "FFFF" ∧ floor_to_hex 2 = "0002" ∧
    ∀ f : Int, 0 ≤ f → f ≤ 65535 →
      (floor_to_hex f).length = 4 ∧
      (∀ c ∈ (floor_to_hex f).data, isHexDigitChar c = true) ∧
      hexVal (floor_to_hex f).data = f.toNat := by
  refine ⟨by decide, by decide, ?_⟩
  intro f h0 h1
  have hne : f ≠ -1 := by omega
  have hmod : f % ((2 : Int) ^ 32) = f := by
    have h32 : ((2 : Int) ^ 32) = 4294967296 := by norm_num
    rw [h32]
    omega
  have hn : f.toNat < 65536 := by omega
  have := sprintf04X_spec hn
  simpa only [floor_to_hex, if_neg hne, hmod] using this

/-- Witness for C7 at floor 7. -/
theorem floor_to_hex_spec_wit :
    (floor_to_hex 7).length = 4 ∧
    (∀ c ∈ (floor_to_hex 7).data, isHexDigitChar c = true) ∧
    hexVal (floor_to_hex 7).data = (7 : Int).toNat :=
  floor_to_hex_spec.2.2 7 (by decide) (by decide)

/-- C10: floor_to_hex yields a 4-character string only for -1 or inputs in
[0, 65535]; for every other negative int-range input (reachable because
the start floor comes from an arbitrary command-line integer) it yields
the full 8-hex-digit unsigned 32-bit representation, overflowing the
4-character wire field and the 5-byte caller buffer. -/
theorem floor_to_hex_overflow :
    (∀ f : Int, -(2 ^ 31) ≤ f → f ≤ -2 →
      (floor_to_hex f).length = 8 ∧
      hexVal (floor_to_hex f).data = (f + 2 ^ 32).toNat) ∧
    (∀ f : Int, -(2 ^ 31) ≤ f → f < 2 ^ 31 → (floor_to_hex f).length = 4 →
      f = -1 ∨ (0 ≤ f ∧ f ≤ 65535)) := by
  constructor
  · intro f hlo hhi
    exact floor_to_hex_neg hlo hhi
  · intro f hlo hhi hlen
    by_cases h0 : 0 ≤ f
    · right
      refine ⟨h0, ?_⟩
      by_contra hgt
      push_neg at hgt
      have hne : f ≠ -1 := by omega
      have hmod : f % ((2 : Int) ^ 32) = f := by
        have h32 : ((2 : Int) ^ 32) = 4294967296 := by norm_num
        have h31 : ((2 : Int) ^ 31) = 2147483648 := by norm_num
        rw [h32]
        rw [h31] at hhi
        omega
      have hge : 16 ^ 4 ≤ f.toNat := by
        have : (16 : Nat) ^ 4 = 65536 := by norm_num
        omega
      have hlt : f.toNat < 16 ^ 32 := by
        have h31 : ((2 : Int) ^ 31) = 2147483648 := by norm_num
        have : (16 : Nat) ^ 32 = 2 ^ 128 := by norm_num
        have h128 : (2147483648 : Nat) ≤ 2 ^ 128 := by norm_num
        rw [h31] at hhi
        omega
      have h4 : 4 < (hexRep f.toNat).length :=
        lt_length_hexRepAux 32 4 f.toNat hge hlt
      rw [floor_to_hex, if_neg hne, hmod, length_sprintf04X] at hlen
      omega
    · push_neg at h0
      by_cases h1 : f = -1
      · exact Or.inl h1
      · exfalso
        have := (floor_to_hex_neg hlo (by omega)).1
        omega

/-- Witness for C10 at start floor -2: the wire field becomes the eight
characters "FFFFFFFE", and a 4-character result at floor 100 is still in
range. -/
theorem floor_to_hex_overflow_wit :
    ((floor_to_hex (-2)).length = 8 ∧
      hexVal (floor_to_hex (-2)).data = ((-2 : Int) + 2 ^ 32).toNat) ∧
    ((100 : Int) = -1 ∨ ((0 : Int) ≤ 100 ∧ (100 : Int) ≤ 65535)) :=
  ⟨floor_to_hex_overflow.1 (-2) (by decide) (by decide),
   floor_to_hex_overflow.2 100 (by decide) (by decide) (by decide)⟩

lemma takeWhile_all {α : Type} {p : α → Bool} :
    ∀ l : List α, (∀ x ∈ l, p x = true) → l.takeWhile p = l := by
  intro l h
  induction l with
  | nil => rfl
  | cons a t ih =>
    rw [List.takeWhile_cons_of_pos (h a (by simp)),
      ih (fun x hx => h x (by simp [hx]))]

lemma hex_char_ne_zero {c : Char} (h : isHexDigitChar c = true) :
    c.toNat ≠ 0 := by
  simp [isHexDigitChar] at h
  omega

lemma data_append (a b : String) : (a ++ b).data = a.data ++ b.data := rfl

/-- C1: every frame handed to WriteFile is exactly the ENQ byte 5, the 13
byte values of stationId, command, dataNumber and dataValue, and the two
checksum digit bytes; at the spec's example inputs the bytes are
5, '0','0','0','2','W','0','0','0','1','0','0','0','1', then the computed
checksum digits '9','B'. -/
theorem frame_layout :
    (∀ dn dv : String,
      dn.length = 4 → dv.length = 4 →
      (∀ c ∈ dn.data, c.toNat ≠ 0) → (∀ c ∈ dv.data, c.toNat ≠ 0) →
      sent_bytes dn dv =
        5 :: ((data_part dn dv).data.map Char.toNat
          ++ (calculate_checksum (data_part dn dv)).data.map Char.toNat) ∧
      (data_part dn dv).length = 13 ∧
      (calculate_checksum (data_part dn dv)).length = 2) ∧
    sent_bytes "0001" "0001" =
      [5, 48, 48, 48, 50, 87, 48, 48, 48, 49, 48, 48, 48, 49, 57, 66] := by
  constructor
  · intro dn dv hdn hdv hdn0 hdv0
    have hdata : (message dn dv).data =
        Char.ofNat 5 :: ((data_part dn dv).data
          ++ (calculate_checksum (data_part dn dv)).data) := by
      rw [message, data_append]
      rfl
    have hdp : (data_part dn dv).data =
        station.data ++ cmdW.data ++ dn.data ++ dv.data := by
      rw [data_part, data_append, data_append, data_append]
    have hcs := checksum_spec (data_part dn dv)
    refine ⟨?_, ?_, hcs.1⟩
    · rw [sent_bytes, hdata]
      have hall : ∀ b ∈ (Char.ofNat 5 :: ((data_part dn dv).data
          ++ (calculate_checksum (data_part dn dv)).data)).map Char.toNat,
          (fun x => decide (x ≠ 0)) b = true := by
        intro b hb
        simp only [List.map_cons, List.mem_cons, List.map_append,
          List.mem_append, List.mem_map] at hb
        rcases hb with h5 | ⟨c, hc, hb⟩ | ⟨c, hc, hb⟩
        · subst h5; decide
        · rw [hdp] at hc
          simp only [List.mem_append] at hc
          subst hb
          rcases hc with ((hc | hc) | hc) | hc
          · have hs : ∀ x ∈ station.data, x.toNat ≠ 0 := by decide
            simp [hs c hc]
          · have hs : ∀ x ∈ cmdW.data, x.toNat ≠ 0 := by decide
            simp [hs c hc]
          · simp [hdn0 c hc]
          · simp [hdv0 c hc]
        · subst hb
          simp [hex_char_ne_zero (hcs.2.1 c hc)]
      rw [takeWhile_all _ hall]
      simp
    · have : (data_part dn dv).length =
          station.length + cmdW.length + dn.length + dv.length := by
        rw [data_part, String.length_append, String.length_append,
          String.length_append]
      rw [this, hdn, hdv]
      rfl
  · decide

/-- Witness for C1 at the spec's end-to-end example inputs. -/
theorem frame_layout_wit :
    sent_bytes "0001" "0001" =
      5 :: ((data_part "0001" "0001").data.map Char.toNat
        ++ (calculate_checksum (data_part "0001" "0001")).data.map Char.toNat) ∧
    (data_part "0001" "0001").length = 13 ∧
    (calculate_checksum (data_part "0001" "0001")).length = 2 :=
  frame_layout.1 "0001" "0001" (by decide) (by decide) (by decide) (by decide)

/-! ## Helper lemmas about the scenario state machine -/

lemma burst_full {dn dv : String} {k : Nat} {w : Nat → Bool} :
    ∀ r p sc, p + r ≤ k →
      burst dn dv k w r p sc = (specBurstN dn dv w r sc, p + r, sc + r) := by
  intro r
  induction r with
  | zero => intro p sc _; simp [burst, specBurstN]
  | succ r ih =>
    intro p sc h
    have hpk : p < k := by omega
    have e1 : p + 1 + r = p + (r + 1) := by omega
    have e2 : sc + 1 + r = sc + (r + 1) := by omega
    simp only [burst, hpk, if_true, ih (p + 1) (sc + 1) (by omega), e1, e2]
    rfl

lemma pollWait_full {k : Nat} : ∀ r p, p + r ≤ k →
    pollWait k r p = (specWaitN r, p + r) := by
  intro r
  induction r with
  | zero => intro p _; simp [pollWait, specWaitN]
  | succ r ih =>
    intro p h
    have hpk : p < k := by omega
    have e1 : p + 1 + r = p + (r + 1) := by omega
    simp only [pollWait, hpk, if_true, ih (p + 1) (by omega), e1]
    rfl

lemma burst_counter_ge (dn dv : String) (k : Nat) (w : Nat → Bool) :
    ∀ r p sc, k ≤ p + r → k ≤ (burst dn dv k w r p sc).2.1 := by
  intro r
  induction r with
  | zero => intro p sc h; simpa [burst] using h
  | succ r ih =>
    intro p sc h
    by_cases hpk : p < k
    · simp only [burst, hpk, if_true]
      exact ih (p + 1) (sc + 1) (by omega)
    · simp only [burst, hpk, if_false]
      omega

lemma pollWait_counter_ge (k : Nat) :
    ∀ r p, k ≤ p + r → k ≤ (pollWait k r p).2 := by
  intro r
  induction r with
  | zero => intro p h; simpa [pollWait] using h
  | succ r ih =>
    intro p h
    by_cases hpk : p < k
    · simp only [pollWait, hpk, if_true]
      exact ih (p + 1) (by omega)
    · simp only [pollWait, hpk, if_false]
      omega

lemma cycleBody_full {cur tgt : Int} {k : Nat} {w : Nat → Bool} {p sc : Nat}
    (h : p + 44 ≤ k) :
    cycleBody cur tgt k w p sc =
      ⟨specCycleTrace cur tgt w sc, p + 44, sc + 20, tgt, true⟩ := by
  rw [cycleBody]
  rw [burst_full 5 p sc (by omega)]
  simp only
  rw [if_pos (show p + 5 < k by omega)]
  rw [burst_full 5 (p + 5 + 1) (sc + 5) (by omega)]
  simp only
  rw [if_pos (show p + 5 + 1 + 5 < k by omega)]
  rw [burst_full 5 (p + 5 + 1 + 5 + 1) (sc + 5 + 5) (by omega)]
  simp only
  rw [if_pos (show p + 5 + 1 + 5 + 1 + 5 < k by omega)]
  rw [pollWait_full 10 (p + 5 + 1 + 5 + 1 + 5 + 1) (by omega)]
  simp only
  rw [if_pos (show p + 5 + 1 + 5 + 1 + 5 + 1 + 10 < k by omega)]
  rw [burst_full 5 (p + 5 + 1 + 5 + 1 + 5 + 1 + 10 + 1) (sc + 5 + 5 + 5) (by omega)]
  simp only
  rw [pollWait_full 10 (p + 5 + 1 + 5 + 1 + 5 + 1 + 10 + 1 + 5) (by omega)]
  have e1 : p + 5 + 1 + 5 + 1 + 5 + 1 + 10 + 1 + 5 + 10 = p + 44 := by omega
  have e4 : sc + 5 + 5 + 5 + 5 = sc + 20 := by omega
  have e3 : sc + 5 + 5 + 5 = sc + 15 := by omega
  have e2 : sc + 5 + 5 = sc + 10 := by omega
  rw [e1, e4, e3, e2]
  rfl

/-- Counterexample for C3 as stated: with starting floor 1, target 2, and
the flag cleared after poll 31 (polls 0..30 read true), the Arrival stage
is cancelled after only two of its five sends, yet current_floor is still
updated to the target: the assignment after the arrival for-loop is
unconditional in wmain. -/
theorem cycle_floor_cex :
    (cycleBody 1 2 31 (fun _ => true) 0 0).events.count
        (Ev.send "0002" "0000" true) = 2 ∧
    (cycleBody 1 2 31 (fun _ => true) 0 0).floor = 2 ∧
    (2 : Int) ≠ 1 := by
  refine ⟨by decide, by decide, by decide⟩

/-- C3 as amended: cancellation during AnnounceCurrent, AnnounceTarget,
PassengerLoad or any wait leaves currentFloor unchanged, but the floor
update is tied to entering the Arrival stage, not to completing it: the
body's resulting floor is the target iff the guard poll before Arrival
(poll p + 28 of the body) still read the flag as set, even when the
Arrival burst itself is then cut short. -/
theorem cycle_floor_update :
    ∀ (cur tgt : Int) (k : Nat) (w : Nat → Bool) (p sc : Nat),
      (cycleBody cur tgt k w p sc).floor = (if p + 28 < k then tgt else cur) ∧
      (cycleBody cur tgt k w p sc).cont = decide (p + 28 < k) := by
  intro cur tgt k w p sc
  rw [cycleBody]
  by_cases hA : p + 5 ≤ k
  · rw [burst_full 5 p sc hA]
    simp only
    by_cases hB : p + 5 < k
    · rw [if_pos hB]
      by_cases hC : p + 5 + 1 + 5 ≤ k
      · rw [burst_full 5 (p + 5 + 1) (sc + 5) hC]
        simp only
        by_cases hD : p + 5 + 1 + 5 < k
        · rw [if_pos hD]
          by_cases hE : p + 5 + 1 + 5 + 1 + 5 ≤ k
          · rw [burst_full 5 (p + 5 + 1 + 5 + 1) (sc + 5 + 5) hE]
            simp only
            by_cases hF : p + 5 + 1 + 5 + 1 + 5 < k
            · rw [if_pos hF]
              by_cases hG : p + 5 + 1 + 5 + 1 + 5 + 1 + 10 ≤ k
              · rw [pollWait_full 10 (p + 5 + 1 + 5 + 1 + 5 + 1) hG]
                simp only
                by_cases hH : p + 5 + 1 + 5 + 1 + 5 + 1 + 10 < k
                · rw [if_pos hH]
                  simp [show p + 28 < k from by omega]
                · rw [if_neg hH]
                  simp [show ¬ (p + 28 < k) from by omega]
              · rw [if_neg (not_lt.mpr
                  (pollWait_counter_ge k 10 (p + 5 + 1 + 5 + 1 + 5 + 1) (by omega)))]
                simp [show ¬ (p + 28 < k) from by omega]
            · rw [if_neg hF]
              simp [show ¬ (p + 28 < k) from by omega]
          · rw [if_neg (not_lt.mpr (burst_counter_ge "0003" "074E" k w
              5 (p + 5 + 1 + 5 + 1) (sc + 5 + 5) (by omega)))]
            simp [show ¬ (p + 28 < k) from by omega]
        · rw [if_neg hD]
          simp [show ¬ (p + 28 < k) from by omega]
      · rw [if_neg (not_lt.mpr (burst_counter_ge "0002" (floor_to_hex tgt) k w
          5 (p + 5 + 1) (sc + 5) (by omega)))]
        simp [show ¬ (p + 28 < k) from by omega]
    · rw [if_neg hB]
      simp [show ¬ (p + 28 < k) from by omega]
  · rw [if_neg (not_lt.mpr (burst_counter_ge "0001" (floor_to_hex cur) k w
      5 p sc (by omega)))]
    simp [show ¬ (p + 28 < k) from by omega]

/-- C5: in an uncancelled cycle (the flag stays set through all 45 polls
of the iteration) the loop emits exactly the spec's stage order -
AnnounceCurrent times 5, wait 3, AnnounceTarget times 5, wait 3,
PassengerLoad times 5, wait 10, Arrival times 5 with the floor update,
wait 10 - and then repeats with currentFloor set to the chosen target. -/
theorem scenario_cycle_order :
    ∀ (s : Nat → Nat) (k sf : Nat) (w : Nat → Bool) (fuel : Nat) (cur : Int)
      (p r : Nat) (t : Int) (r' sc : Nat),
      p + 45 ≤ k → selectTarget s cur sf r = some (t, r') →
      sim s k sf w (fuel + 1) cur p r sc =
        Ev.poll true ::
          (specCycleTrace cur t w sc ++ sim s k sf w fuel t (p + 45) r' (sc + 20)) := by
  intro s k sf w fuel cur p r t r' sc hk hsel
  rw [sim, if_pos (show p < k by omega), hsel]
  simp only
  rw [cycleBody_full (show p + 1 + 44 ≤ k by omega),
    show p + 1 + 44 = p + 45 from by omega]
  simp only [if_pos]

/-- Witness for C5: one concrete uncancelled cycle starting at floor 2 with
target 1 (the rand stream constantly draws index 1). -/
theorem scenario_cycle_order_wit :
    sim (fun _ => 1) 46 1 (fun _ => true) 1 2 0 0 0 =
      Ev.poll true ::
        (specCycleTrace 2 1 (fun _ => true) 0 ++
          sim (fun _ => 1) 46 1 (fun _ => true) 0 1 45 1 20) :=
  scenario_cycle_order (fun _ => 1) 46 1 (fun _ => true) 0 2 0 0 1 1 0
    (by decide) (by decide)

/-- C6: every selected target comes from the fixed floor table
{-1, 1, 2, 3} and differs from the current floor; selection terminates as
soon as the rand stream produces an index whose floor differs from the
current one, and such an index always exists because the table has at
least two distinct entries. -/
theorem target_selection :
    (∀ (s : Nat → Nat) (cur : Int) (sf r : Nat) (t : Int) (r' : Nat),
      selectTarget s cur sf r = some (t, r') →
      (t = -1 ∨ t = 1 ∨ t = 2 ∨ t = 3) ∧ t ≠ cur) ∧
    (∀ (s : Nat → Nat) (cur : Int) (r n : Nat),
      floorsGet (s (r + n) % 4) ≠ cur →
      ∀ sf, n < sf → (selectTarget s cur sf r).isSome = true) ∧
    (∀ cur : Int, ∃ i, i < 4 ∧ floorsGet i ≠ cur) := by
  refine ⟨?_, ?_, ?_⟩
  · intro s cur sf
    induction sf with
    | zero => intro r t r' h; simp [selectTarget] at h
    | succ sf ih =>
      intro r t r' h
      simp only [selectTarget] at h
      by_cases ht : floorsGet (s r % 4) = cur
      · rw [if_pos ht] at h
        exact ih (r + 1) t r' h
      · rw [if_neg ht] at h
        simp only [Option.some.injEq, Prod.mk.injEq] at h
        obtain ⟨h1, _⟩ := h
        subst h1
        refine ⟨?_, ht⟩
        have h4 : s r % 4 = 0 ∨ s r % 4 = 1 ∨ s r % 4 = 2 ∨ s r % 4 = 3 := by
          omega
        rcases h4 with h4 | h4 | h4 | h4 <;> rw [h4] <;> simp [floorsGet]
  · intro s cur r n
    induction n generalizing r with
    | zero =>
      intro hne sf hsf
      rcases sf with _ | sf0
      · omega
      · simp only [selectTarget]
        rw [if_neg (by simpa using hne)]
        rfl
    | succ n ih =>
      intro hne sf hsf
      rcases sf with _ | sf0
      · omega
      · simp only [selectTarget]
        by_cases ht : floorsGet (s r % 4) = cur
        · rw [if_pos ht]
          refine ih (r + 1) ?_ sf0 (by omega)
          rw [show r + 1 + n = r + (n + 1) from by omega]
          exact hne
        · rw [if_neg ht]
          rfl
  · intro cur
    by_cases h : cur = -1
    · exact ⟨1, by norm_num, by simp [floorsGet, h]⟩
    · exact ⟨0, by norm_num, by simp [floorsGet]; omega⟩

/-- Witness for C6: a selection that draws floor 1 while standing at floor
2, and a terminating selection from the constant-0 rand stream at floor 1. -/
theorem target_selection_wit :
    (((1 : Int) = -1 ∨ (1 : Int) = 1 ∨ (1 : Int) = 2 ∨ (1 : Int) = 3) ∧
      (1 : Int) ≠ 2) ∧
    (selectTarget (fun _ => 0) 1 1 0).isSome = true :=
  ⟨target_selection.1 (fun _ => 1) 2 1 0 1 1 (by decide),
   target_selection.2.1 (fun _ => 0) 1 0 0 (by decide) 1 (by decide)⟩

lemma sendsPolled_append :
    ∀ (xs ys : List Ev) (pr : Option Ev), sendsPolled pr xs = true →
      (∀ q, sendsPolled q ys = true) → sendsPolled pr (xs ++ ys) = true := by
  intro xs
  induction xs with
  | nil => intro ys pr _ hy; exact hy pr
  | cons e t ih =>
    intro ys pr h hy
    rw [List.cons_append]
    simp only [sendsPolled, Bool.and_eq_true] at h ⊢
    exact ⟨h.1, ih ys (some e) h.2 hy⟩

lemma sendsPolled_burst (dn dv : String) (k : Nat) (w : Nat → Bool) :
    ∀ r p sc pr, sendsPolled pr (burst dn dv k w r p sc).1 = true := by
  intro r
  induction r with
  | zero => intro p sc pr; rfl
  | succ r ih =>
    intro p sc pr
    by_cases hpk : p < k
    · simp only [burst, hpk, if_true]
      simp [sendsPolled, ih (p + 1) (sc + 1)]
    · simp [burst, hpk, sendsPolled]

lemma sendsPolled_pollWait (k : Nat) :
    ∀ r p pr, sendsPolled pr (pollWait k r p).1 = true := by
  intro r
  induction r with
  | zero => intro p pr; rfl
  | succ r ih =>
    intro p pr
    by_cases hpk : p < k
    · simp only [pollWait, hpk, if_true]
      simp [sendsPolled, ih (p + 1)]
    · simp [pollWait, hpk, sendsPolled]

lemma sendsPolled_cons {e : Ev} (he : ∀ dn dv b, e ≠ Ev.send dn dv b)
    {l : List Ev} (hl : ∀ q, sendsPolled q l = true) :
    ∀ pr, sendsPolled pr (e :: l) = true := by
  intro pr
  cases e with
  | poll b => simp [sendsPolled, hl]
  | send dn dv b => exact absurd rfl (he dn dv b)
  | sleep u => simp [sendsPolled, hl]
  | setFloor f => simp [sendsPolled, hl]

lemma sendsPolled_cycleBody (cur tgt : Int) (k : Nat) (w : Nat → Bool)
    (p sc : Nat) :
    ∀ pr, sendsPolled pr (cycleBody cur tgt k w p sc).events = true := by
  intro pr
  have hpoll : ∀ b, ∀ dn dv ok, Ev.poll b ≠ Ev.send dn dv ok :=
    fun _ _ _ _ h => Ev.noConfusion h
  have hsleep : ∀ u, ∀ dn dv ok, Ev.sleep u ≠ Ev.send dn dv ok :=
    fun _ _ _ _ h => Ev.noConfusion h
  have hset : ∀ f, ∀ dn dv ok, Ev.setFloor f ≠ Ev.send dn dv ok :=
    fun _ _ _ _ h => Ev.noConfusion h
  have hone : ∀ b, ∀ q, sendsPolled q [Ev.poll b] = true := by
    intro b q; simp [sendsPolled]
  simp only [cycleBody]
  split_ifs
  all_goals
    repeat
      first
      | exact hone false _
      | exact sendsPolled_pollWait _ _ _ _
      | (refine sendsPolled_append _ _ _ (sendsPolled_burst _ _ _ _ _ _ _ _) ?_
         intro q)
      | (refine sendsPolled_append _ _ _ (sendsPolled_pollWait _ _ _ _) ?_
         intro q)
      | (refine sendsPolled_cons (hpoll true) ?_ q
         intro q)
      | (refine sendsPolled_cons (hsleep 3) ?_ q
         intro q)
      | (refine sendsPolled_cons (hset tgt) ?_ q
         intro q)

lemma waitPolled_pollWait (k : Nat) :
    ∀ r p pr, waitPolled pr (pollWait k r p).1 = true := by
  intro r
  induction r with
  | zero => intro p pr; rfl
  | succ r ih =>
    intro p pr
    by_cases hpk : p < k
    · simp only [pollWait, hpk, if_true]
      simp [waitPolled, ih (p + 1)]
    · simp [pollWait, hpk, waitPolled]

/-- Counterexample for C4 as stated: the 3-time-unit waits are each one
monolithic Sleep(3000).  With the flag cleared right after the guard poll
that follows AnnounceCurrent (polls 0..5 read true, poll 6 reads false),
the trace after the first fifteen events is: guard poll read true, a
single atomic 3-unit sleep, then the next two polls read false - so the
flag is not polled at 1-unit increments of the 3-unit wait, and the wait
runs a full 3 units after cancellation. -/
theorem cancellation_polling_cex :
    (cycleBody 1 2 6 (fun _ => true) 0 0).events.drop 15 =
      [Ev.poll true, Ev.sleep 3, Ev.poll false, Ev.poll false] ∧
    Ev.sleep 3 ∈ (cycleBody 1 2 6 (fun _ => true) 0 0).events :=
  ⟨by decide, by decide⟩

/-- C4 as amended: the flag is polled before every individual transmission
(every send event in a body trace is immediately preceded by a poll that
read true), and the 10-unit waits poll before every 1-unit sleep; the
3-unit waits, however, are single atomic sleeps with no internal poll. -/
theorem cancellation_polling :
    (∀ (cur tgt : Int) (k : Nat) (w : Nat → Bool) (p sc : Nat) (pr : Option Ev),
      sendsPolled pr (cycleBody cur tgt k w p sc).events = true) ∧
    (∀ (k r p : Nat) (pr : Option Ev), waitPolled pr (pollWait k r p).1 = true) :=
  ⟨fun cur tgt k w p sc pr => sendsPolled_cycleBody cur tgt k w p sc pr,
   fun k r p pr => waitPolled_pollWait k r p pr⟩

lemma burst_indep (dn dv : String) (k : Nat) (w w' : Nat → Bool) :
    ∀ r p sc,
      (burst dn dv k w r p sc).1.map eraseW
        = (burst dn dv k w' r p sc).1.map eraseW ∧
      (burst dn dv k w r p sc).2 = (burst dn dv k w' r p sc).2 := by
  intro r
  induction r with
  | zero => exact fun p sc => ⟨rfl, rfl⟩
  | succ r ih =>
    intro p sc
    obtain ⟨h1, h2⟩ := ih (p + 1) (sc + 1)
    by_cases hpk : p < k
    · simp [burst, hpk, eraseW, h1, h2]
    · simp [burst, hpk]

/-- C9: a failed WriteFile only changes which log line send_enq prints: the
call still returns, and no part of the scenario outcome - the trace up to
the per-send success flags, the poll counter, the send counter, the
resulting floor, or whether the loop continues - depends on which writes
failed. -/
theorem send_failure_nonfatal :
    (∀ (dn dv : String) (e : Nat),
      send_enq_log dn dv false e = SendLog.sendErr e) ∧
    (∀ (cur tgt : Int) (k : Nat) (w w' : Nat → Bool) (p sc : Nat),
      (cycleBody cur tgt k w p sc).events.map eraseW
        = (cycleBody cur tgt k w' p sc).events.map eraseW ∧
      (cycleBody cur tgt k w p sc).polls = (cycleBody cur tgt k w' p sc).polls ∧
      (cycleBody cur tgt k w p sc).sends = (cycleBody cur tgt k w' p sc).sends ∧
      (cycleBody cur tgt k w p sc).floor = (cycleBody cur tgt k w' p sc).floor ∧
      (cycleBody cur tgt k w p sc).cont = (cycleBody cur tgt k w' p sc).cont) := by
  constructor
  · intro dn dv e
    rfl
  · intro cur tgt k w w' p sc
    obtain ⟨e1, c1⟩ := burst_indep "0001" (floor_to_hex cur) k w w' 5 p sc
    simp only [cycleBody]
    rw [c1]
    obtain ⟨e2, c2⟩ := burst_indep "0002" (floor_to_hex tgt) k w w' 5
      ((burst "0001" (floor_to_hex cur) k w' 5 p sc).2.1 + 1)
      (burst "0001" (floor_to_hex cur) k w' 5 p sc).2.2
    rw [c2]
    obtain ⟨e3, c3⟩ := burst_indep "0003" "074E" k w w' 5
      ((burst "0002" (floor_to_hex tgt) k w' 5
        ((burst "0001" (floor_to_hex cur) k w' 5 p sc).2.1 + 1)
        (burst "0001" (floor_to_hex cur) k w' 5 p sc).2.2).2.1 + 1)
      (burst "0002" (floor_to_hex tgt) k w' 5
        ((burst "0001" (floor_to_hex cur) k w' 5 p sc).2.1 + 1)
        (burst "0001" (floor_to_hex cur) k w' 5 p sc).2.2).2.2
    rw [c3]
    obtain ⟨e4, c4⟩ := burst_indep "0002" "0000" k w w' 5
      ((pollWait k 10
        ((burst "0003" "074E" k w' 5
          ((burst "0002" (floor_to_hex tgt) k w' 5
            ((burst "0001" (floor_to_hex cur) k w' 5 p sc).2.1 + 1)
            (burst "0001" (floor_to_hex cur) k w' 5 p sc).2.2).2.1 + 1)
          (burst "0002" (floor_to_hex tgt) k w' 5
            ((burst "0001" (floor_to_hex cur) k w' 5 p sc).2.1 + 1)
            (burst "0001" (floor_to_hex cur) k w' 5 p sc).2.2).2.2).2.1 + 1)).2 + 1)
      (burst "0003" "074E" k w' 5
        ((burst "0002" (floor_to_hex tgt) k w' 5
          ((burst "0001" (floor_to_hex cur) k w' 5 p sc).2.1 + 1)
          (burst "0001" (floor_to_hex cur) k w' 5 p sc).2.2).2.1 + 1)
        (burst "0002" (floor_to_hex tgt) k w' 5
          ((burst "0001" (floor_to_hex cur) k w' 5 p sc).2.1 + 1)
          (burst "0001" (floor_to_hex cur) k w' 5 p sc).2.2).2.2).2.2
    rw [c4]
    split_ifs <;>
      refine ⟨?_, rfl, rfl, rfl, rfl⟩ <;>
      simp only [List.map_append, List.map_cons, eraseW, e1, e2, e3, e4]

lemma hbTimes_frame (t : Nat) (bs : List Nat) (l : List MLog) :
    hbTimes (MLog.frame t bs :: l) = hbTimes l := by
  simp [hbTimes]

lemma hbTimes_heartbeat (t : Nat) (l : List MLog) :
    hbTimes (MLog.heartbeat t :: l) = t :: hbTimes l := by
  simp [hbTimes]

lemma monRun_hb :
    ∀ (trace : List (Nat × ReadRes)) (last : Nat),
      List.Pairwise (· ≤ ·) (trace.map Prod.fst) →
      (∀ x ∈ trace, last ≤ x.1) →
      (∀ t ∈ hbTimes (monRun last trace).1, last + 10 < t) ∧
      List.Chain' (fun a b => a + 10 < b) (hbTimes (monRun last trace).1) := by
  intro trace
  induction trace with
  | nil =>
    intro last _ _
    exact ⟨by simp [monRun, hbTimes], by simp [monRun, hbTimes]⟩
  | cons x rest ih =>
    obtain ⟨now, r⟩ := x
    intro last hsort hge
    have hpair : (∀ (a : Nat) (x : ReadRes), (a, x) ∈ rest → now ≤ a) ∧
        List.Pairwise (fun a b : Nat => a ≤ b) (List.map Prod.fst rest) := by
      simpa using hsort
    have hsort' : List.Pairwise (· ≤ ·) (rest.map Prod.fst) := hpair.2
    have hnowrest : ∀ y ∈ rest, now ≤ y.1 := by
      intro y hy
      exact hpair.1 y.1 y.2 (by simpa using hy)
    have hlast : last ≤ now := hge (now, r) (by simp)
    have hgerest : ∀ y ∈ rest, last ≤ y.1 :=
      fun y hy => le_trans hlast (hnowrest y hy)
    cases r with
    | err =>
      simp only [monRun, monStep, List.nil_append]
      exact ih last hsort' hgerest
    | bytes bs =>
      by_cases hb : bs.length > 0
      · simp only [monRun, monStep, hb, if_true, List.cons_append,
          List.nil_append, hbTimes_frame]
        obtain ⟨ih1, ih2⟩ := ih now hsort' hnowrest
        exact ⟨fun t ht => by have := ih1 t ht; omega, ih2⟩
      · have hb0 : ¬ bs.length > 0 := hb
        by_cases hhb : 10 < now - last
        · simp only [monRun, monStep, hb0, if_false, hhb, if_true,
            List.cons_append, List.nil_append, hbTimes_heartbeat]
          obtain ⟨ih1, ih2⟩ := ih now hsort' hnowrest
          constructor
          · intro t ht
            rcases List.mem_cons.mp ht with h | h
            · omega
            · have := ih1 t h; omega
          · refine List.chain'_cons'.mpr ⟨?_, ih2⟩
            intro b hbh
            have := ih1 b (List.mem_of_mem_head? hbh)
            omega
        · simp only [monRun, monStep, hb0, if_false, hhb, List.nil_append]
          exact ih last hsort' hgerest

/-- C8: a non-empty read is logged at once and resets the idle timestamp to
its own time; a zero-byte timeout produces a heartbeat only when more than
10 time-units have passed since the last activity, and emitting the
heartbeat resets the idle timer, so for any chronological schedule of
reads the successive heartbeat times are always more than 10 units
apart. -/
theorem monitor_heartbeat :
    (∀ (last now : Nat) (bs : List Nat), bs ≠ [] →
      monStep last now (ReadRes.bytes bs) = ([MLog.frame now bs], now)) ∧
    (∀ last now : Nat, 10 < now - last →
      monStep last now (ReadRes.bytes []) = ([MLog.heartbeat now], now)) ∧
    (∀ last now : Nat, ¬ 10 < now - last →
      monStep last now (ReadRes.bytes []) = ([], last)) ∧
    (∀ (trace : List (Nat × ReadRes)) (last : Nat),
      List.Pairwise (· ≤ ·) (trace.map Prod.fst) →
      (∀ x ∈ trace, last ≤ x.1) →
      List.Chain' (fun a b => a + 10 < b) (hbTimes (monRun last trace).1)) := by
  refine ⟨?_, ?_, ?_, ?_⟩
  · intro last now bs hbs
    simp [monStep, List.length_pos.mpr hbs]
  · intro last now h
    simp [monStep, h]
  · intro last now h
    simp [monStep, h]
  · intro trace last h1 h2
    exact (monRun_hb trace last h1 h2).2

/-- Witness for C8: a concrete frame read, a heartbeat emission, a
suppressed heartbeat, and a schedule whose two timeouts at times 11 and 22
produce heartbeats more than 10 units apart. -/
theorem monitor_heartbeat_wit :
    monStep 0 5 (ReadRes.bytes [5, 48]) = ([MLog.frame 5 [5, 48]], 5) ∧
    monStep 0 11 (ReadRes.bytes []) = ([MLog.heartbeat 11], 11) ∧
    monStep 0 9 (ReadRes.bytes []) = ([], 0) ∧
    List.Chain' (fun a b => a + 10 < b)
      (hbTimes (monRun 0 [(11, ReadRes.bytes []), (22, ReadRes.bytes [])]).1) :=
  ⟨monitor_heartbeat.1 0 5 [5, 48] (by decide),
   monitor_heartbeat.2.1 0 11 (by decide),
   monitor_heartbeat.2.2.1 0 9 (by decide),
   monitor_heartbeat.2.2.2 [(11, ReadRes.bytes []), (22, ReadRes.bytes [])] 0
     (by decide) (by decide)⟩

example : calculate_checksum (data_part "0001" "0001") = "9B" := by decide
example : floor_to_hex 2 = "0002" := by decide
example : floor_to_hex (-1) = "FFFF" := by decide
example : floor_to_hex (-2) = "FFFFFFFE" := by decide
example : (cycleBody 1 2 31 (fun _ => true) 0 0).floor = 2 := by decide
example : (cycleBody 1 2 31 (fun _ => true) 0 0).events.count
    (Ev.send "0002" "0000" true) = 2 := by decide
example : (cycleBody 1 2 28 (fun _ => true) 0 0).floor = 1 := by decide
example : (cycleBody 1 2 29 (fun _ => true) 0 0).floor = 2 := by decide
example : (cycleBody 2 1 100 (fun _ => true) 1 0).events
    = specCycleTrace 2 1 (fun _ => true) 0 := by decide
example : (cycleBody 2 1 100 (fun _ => true) 1 0).polls = 45 := by decide
example : (cycleBody 1 2 6 (fun _ => true) 0 0).events.drop 15
    = [Ev.poll true, Ev.sleep 3, Ev.poll false, Ev.poll false] := by decide
example : hbTimes (monRun 0 [(5, ReadRes.bytes []), (11, ReadRes.bytes []),
    (22, ReadRes.bytes []), (30, ReadRes.bytes [])]).1 = [11, 22] := by decide
example : selectTarget (fun _ => 1) 2 1 0 = some (1, 1) := by decide
